import Mathlib

/-!
Shallow embedding of the Observer pattern core of `src/jsDesignPatterns/observer.js`
(the `ObserverList`, `Subject` and `Observer` constructors and their prototype
methods), together with theorems settling the specification claims about it.

Modelling conventions:
* A JavaScript array of observers is a `List α`; observers are abstract values
  compared by decidable equality (reference identity in JS).
* A JavaScript array access `arr[i]` with an arbitrary integer index yields
  `undefined` outside the bounds; this is modelled by `jsIndex : List α → Int →
  Option α`, `none` playing the role of `undefined`.
* An omitted function argument is JS `undefined`; for `indexOf`'s `startIndex`
  this is modelled with `Option Int`, `none` being the omitted argument.
* `Array.prototype.splice(index, 1)` (used by `removeAt`) follows the
  ECMAScript clamping rules for the start index, including negative indices
  counting from the end.
* `notify` reads `count()` once and then runs a loop `for (i = 0; i <
  observerCount; i++)`; the loop is embedded structurally with a countdown
  `remaining = observerCount - i` so that it is executable by `decide`/`rfl`.
  Each observer's `update` method is an arbitrary handler that may mutate the
  subject's list (state passing) or raise an error (`Except`); calling
  `update` on `undefined` (`get` out of range) is a JS `TypeError`.
-/

variable {α γ ε : Type}

/-- JS array access `lst[i]` for an arbitrary integer index: `undefined`
(`none`) for a negative index or an index at or beyond the length. -/
def jsIndex (lst : List α) (i : Int) : Option α :=
  if 0 ≤ i then lst[i.toNat]? else none

/-- `function ObserverList(){ this.observerList = []; }` — the underlying
array of observers (observer.js lines 18-20). -/
structure ObserverList (α : Type) where
  observerList : List α
deriving DecidableEq, Repr

/-- `new ObserverList()`: the constructor starts from an empty array. -/
def ObserverList.new : ObserverList α := ⟨[]⟩

/-- `ObserverList.prototype.add` (observer.js lines 21-23):
`return this.observerList.push(obj);` — appends and returns the new length. -/
def ObserverList.add (l : ObserverList α) (obj : α) : ObserverList α × Nat :=
  (⟨l.observerList ++ [obj]⟩, (l.observerList ++ [obj]).length)

/-- `ObserverList.prototype.count` (observer.js lines 24-26):
`return this.observerList.length;`. -/
def ObserverList.count (l : ObserverList α) : Nat :=
  l.observerList.length

/-- `ObserverList.prototype.get` (observer.js lines 27-31):
`if (index > -1 && index < this.observerList.length) return this.observerList[index];`
— with no `else`, the function returns `undefined` (`none`) otherwise. -/
def ObserverList.get (l : ObserverList α) (index : Int) : Option α :=
  if (-1 : Int) < index ∧ index < (l.observerList.length : Int) then
    jsIndex l.observerList index
  else none

/-- The `while` loop of `ObserverList.prototype.indexOf` (observer.js lines
33-40): `while (i < length) { if (list[i] === obj) return i; i++; } return -1;`.
The loop is embedded with a fuel counter equal to the number of remaining
iterations, `((length : Int) - i).toNat`, so that the recursion is structural;
the fuel reaches `0` exactly when the guard `i < length` fails. -/
def indexOfLoop [DecidableEq α] (lst : List α) (obj : α) : Int → Nat → Int
  | _, 0 => -1
  | i, Nat.succ fuel =>
    if i < (lst.length : Int) then
      if jsIndex lst i = some obj then i
      else indexOfLoop lst obj (i + 1) fuel
    else -1

/-- `ObserverList.prototype.indexOf(obj, startIndex)` (observer.js lines
32-41): `var i = startIndex;` then the scan loop. When the call omits
`startIndex` (modelled by `none`), `i` is `undefined` and the guard
`undefined < length` is false, so the function returns `-1` at once. -/
def ObserverList.indexOf [DecidableEq α] (l : ObserverList α) (obj : α)
    (startIndex : Option Int) : Int :=
  match startIndex with
  | none => -1
  | some s => indexOfLoop l.observerList obj s (((l.observerList.length : Int) - s).toNat)

/-- `Array.prototype.splice(index, 1)`: the ECMAScript start index is
`max(length + index, 0)` for a negative `index` and `min(index, length)`
otherwise; one element (if any) is removed there. -/
def spliceDelete1 (lst : List α) (index : Int) : List α :=
  let start : Nat :=
    if index < 0 then ((lst.length : Int) + index).toNat
    else min index.toNat lst.length
  lst.take start ++ lst.drop (start + 1)

/-- `ObserverList.prototype.removeAt` (observer.js lines 42-44):
`this.observerList.splice(index, 1);`. -/
def ObserverList.removeAt (l : ObserverList α) (index : Int) : ObserverList α :=
  ⟨spliceDelete1 l.observerList index⟩

/-- `function Subject(){ this.observers = new ObserverList(); }`
(observer.js lines 47-49). -/
structure Subject (α : Type) where
  observers : ObserverList α
deriving DecidableEq, Repr

/-- `new Subject()`. -/
def Subject.new : Subject α := ⟨ObserverList.new⟩

/-- `Subject.prototype.addObserver` (observer.js lines 50-52):
`this.observers.add(observer);` — the returned length is discarded. -/
def Subject.addObserver (s : Subject α) (observer : α) : Subject α :=
  ⟨(s.observers.add observer).1⟩

/-- `Subject.prototype.removeObserver` (observer.js lines 53-55):
`this.observers.removeAt(this.observers.indexOf(observer, 0));` — the result
of `indexOf` is passed to `removeAt` unconditionally, `-1` included. -/
def Subject.removeObserver [DecidableEq α] (s : Subject α) (observer : α) : Subject α :=
  ⟨s.observers.removeAt (s.observers.indexOf observer (some 0))⟩

/-- Outcome of one `update` call site inside `notify`: reading `get(i)` out of
range yields `undefined` and `undefined.update(context)` is a JS `TypeError`;
an error raised by the handler itself propagates as `handler e`. -/
inductive NotifyError (ε : Type) where
  | typeError : NotifyError ε
  | handler : ε → NotifyError ε
deriving DecidableEq, Repr

/-- The loop of `Subject.prototype.notify` (observer.js lines 56-61):
`for (var i = 0; i < observerCount; i++) { this.observers.get(i).update(context); }`.
`i` is the loop index and `remaining = observerCount - i` the countdown making
the recursion structural (the guard `i < observerCount` is `remaining > 0`).
`upd` interprets a call `ob.update(context)` on the current subject state: it
returns the mutated subject, or raises an error. The returned list is the
trace of `update` invocations (observer and argument, in call order). -/
def Subject.notifyLoop (upd : α → γ → Subject α → Except ε (Subject α)) (context : γ) :
    Nat → Nat → Subject α → List (α × γ) →
    List (α × γ) × Except (NotifyError ε) (Subject α)
  | _, 0, s, tr => (tr, Except.ok s)
  | i, Nat.succ remaining, s, tr =>
    match s.observers.get (i : Int) with
    | none => (tr, Except.error NotifyError.typeError)
    | some ob =>
      match upd ob context s with
      | Except.error e => (tr ++ [(ob, context)], Except.error (NotifyError.handler e))
      | Except.ok s2 => Subject.notifyLoop upd context (i + 1) remaining s2 (tr ++ [(ob, context)])

/-- `Subject.prototype.notify(context)` (observer.js lines 56-61):
`var observerCount = this.observers.count();` is read once, then the loop runs
from `i = 0` with that fixed bound. -/
def Subject.notify (upd : α → γ → Subject α → Except ε (Subject α))
    (s : Subject α) (context : γ) :
    List (α × γ) × Except (NotifyError ε) (Subject α) :=
  Subject.notifyLoop upd context 0 s.observers.count s []

/-- A sequence of `add` calls on a freshly created `ObserverList`. -/
def ObserverList.addAll (xs : List α) : ObserverList α :=
  xs.foldl (fun l x => (l.add x).1) ObserverList.new

lemma ObserverList.count_foldl_add (xs : List α) :
    ∀ l : ObserverList α, (xs.foldl (fun l x => (l.add x).1) l).count = l.count + xs.length := by
  induction xs with
  | nil => intro l; simp
  | cons x xs ih =>
    intro l
    have h1 : ((l.add x).1).count = l.count + 1 := by
      simp [ObserverList.add, ObserverList.count]
    simp [List.foldl, ih, h1]
    omega

/-- C9: `add(x)` appends `x` at the end, returns the new length, and never
fails; on a fresh `ObserverList`, after any sequence of `add` calls `count()`
equals the number of calls made, duplicates each counted. -/
theorem add_appends_and_count_adds (l : ObserverList α) (x : α) :
    (l.add x).1.observerList = l.observerList ++ [x]
    ∧ (l.add x).2 = l.count + 1
    ∧ ∀ xs : List α, (ObserverList.addAll xs).count = xs.length := by
  refine ⟨rfl, ?_, ?_⟩
  · simp [ObserverList.add, ObserverList.count]
  · intro xs
    have h := ObserverList.count_foldl_add xs (ObserverList.new (α := α))
    simpa [ObserverList.addAll, ObserverList.new, ObserverList.count] using h

/-- C9 witness: a concrete `add` call and a concrete `add` sequence. -/
theorem add_appends_and_count_adds_witness :
    ((⟨[1]⟩ : ObserverList Nat).add 2).1.observerList = [1, 2]
    ∧ ((⟨[1]⟩ : ObserverList Nat).add 2).2 = (⟨[1]⟩ : ObserverList Nat).count + 1
    ∧ ∀ xs : List Nat, (ObserverList.addAll xs).count = xs.length :=
  add_appends_and_count_adds ⟨[1]⟩ 2

/-- C10: `get(i)` returns the observer stored at position `i` whenever
`0 ≤ i < count()`, and the absent result (`none`, JS `undefined`) for every
other integer index — never an exception. -/
theorem get_in_bounds_or_absent (l : ObserverList α) (i : Int) :
    (0 ≤ i → i < (l.count : Int) →
      l.get i = l.observerList[i.toNat]? ∧ ∃ v, l.get i = some v)
    ∧ ((i < 0 ∨ (l.count : Int) ≤ i) → l.get i = none) := by
  constructor
  · intro h0 hlt
    have hguard : (-1 : Int) < i ∧ i < (l.observerList.length : Int) := by
      refine ⟨by omega, ?_⟩
      simpa [ObserverList.count] using hlt
    have hnat : i.toNat < l.observerList.length := by
      have := hguard.2; omega
    constructor
    · simp [ObserverList.get, hguard, jsIndex, h0]
    · exact ⟨l.observerList[i.toNat], by
        simp [ObserverList.get, hguard, jsIndex, h0, List.getElem?_eq_getElem hnat]⟩
  · intro h
    have hguard : ¬ ((-1 : Int) < i ∧ i < (l.observerList.length : Int)) := by
      rcases h with h | h
      · intro hc; omega
      · intro hc
        have : (l.count : Int) = (l.observerList.length : Int) := by
          simp [ObserverList.count]
        omega
    simp [ObserverList.get, hguard]

/-- C10 witness: an in-range and two out-of-range accesses on a concrete list. -/
theorem get_in_bounds_or_absent_witness :
    ((⟨[7, 8]⟩ : ObserverList Nat).get 1 = [7, 8][(1 : Int).toNat]?
      ∧ ∃ v, (⟨[7, 8]⟩ : ObserverList Nat).get 1 = some v)
    ∧ (⟨[7, 8]⟩ : ObserverList Nat).get (-1) = none
    ∧ (⟨[7, 8]⟩ : ObserverList Nat).get 2 = none :=
  ⟨(get_in_bounds_or_absent ⟨[7, 8]⟩ 1).1 (by decide) (by decide),
   (get_in_bounds_or_absent ⟨[7, 8]⟩ (-1)).2 (Or.inl (by decide)),
   (get_in_bounds_or_absent ⟨[7, 8]⟩ 2).2 (Or.inr (by decide))⟩

/-- C1: on the subject whose list holds the single observer `0`, removing the
unregistered observer `1` is not a no-op: `indexOf` returns `-1`,
`removeAt(-1)` is `splice(-1, 1)`, and the last stored observer `0` is
removed, shrinking `count()` from `1` to `0`. -/
theorem removeObserver_absent_clobbers_last :
    (⟨⟨[0]⟩⟩ : Subject Nat).observers.count = 1
    ∧ ((⟨⟨[0]⟩⟩ : Subject Nat).removeObserver 1).observers.observerList = []
    ∧ ((⟨⟨[0]⟩⟩ : Subject Nat).removeObserver 1).observers.count = 0 := by
  decide

/-- The specification of a first-match scan: `r` is the first index at or
after `s` whose JS array access equals `obj`, or `-1` when no such index
exists. -/
def FirstMatchFrom (lst : List α) (obj : α) (s r : Int) : Prop :=
  (r = -1 ∧ ∀ j : Int, s ≤ j → jsIndex lst j ≠ some obj)
  ∨ (s ≤ r ∧ jsIndex lst r = some obj
      ∧ ∀ j : Int, s ≤ j → j < r → jsIndex lst j ≠ some obj)

lemma jsIndex_eq_none_of_length_le (lst : List α) (j : Int)
    (h : (lst.length : Int) ≤ j) : jsIndex lst j = none := by
  have h0 : (0 : Int) ≤ j := by
    have : (0 : Int) ≤ (lst.length : Int) := by positivity
    omega
  have hlen : lst.length ≤ j.toNat := by omega
  simp [jsIndex, h0, List.getElem?_eq_none hlen]

lemma indexOfLoop_spec [DecidableEq α] (lst : List α) (obj : α) :
    ∀ (fuel : Nat) (i : Int), ((lst.length : Int) - i).toNat ≤ fuel →
      FirstMatchFrom lst obj i (indexOfLoop lst obj i fuel) := by
  intro fuel
  induction fuel with
  | zero =>
    intro i hfuel
    have hlen : (lst.length : Int) ≤ i := by omega
    left
    refine ⟨rfl, ?_⟩
    intro j hj
    rw [jsIndex_eq_none_of_length_le lst j (by omega)]
    exact fun h => Option.noConfusion h
  | succ fuel ih =>
    intro i hfuel
    by_cases hi : i < (lst.length : Int)
    · by_cases hhit : jsIndex lst i = some obj
      · right
        rw [indexOfLoop, if_pos hi, if_pos hhit]
        exact ⟨le_refl i, hhit, fun j h1 h2 => absurd (lt_of_lt_of_le h2 h1) (lt_irrefl j)⟩
      · have hstep : indexOfLoop lst obj i (fuel + 1) = indexOfLoop lst obj (i + 1) fuel := by
          rw [indexOfLoop, if_pos hi, if_neg hhit]
        have hrec := ih (i + 1) (by omega)
        rw [hstep]
        rcases hrec with ⟨hr, hnone⟩ | ⟨hge, hmatch, hbetween⟩
        · left
          refine ⟨hr, ?_⟩
          intro j hj
          rcases eq_or_lt_of_le hj with hj' | hj'
          · rw [← hj']; exact hhit
          · exact hnone j (by omega)
        · right
          refine ⟨by omega, hmatch, ?_⟩
          intro j hj hjr
          rcases eq_or_lt_of_le hj with hj' | hj'
          · rw [← hj']; exact hhit
          · exact hbetween j (by omega) hjr
    · have hstep : indexOfLoop lst obj i (fuel + 1) = -1 := by
        rw [indexOfLoop, if_neg hi]
      rw [hstep]
      left
      refine ⟨rfl, ?_⟩
      intro j hj
      rw [jsIndex_eq_none_of_length_le lst j (by omega)]
      exact fun h => Option.noConfusion h

/-- C7 counterexample: the claim that an omitted `startIndex` defaults to `0`
fails — `var i = startIndex` leaves `i` as `undefined` and the loop guard
`undefined < length` is false, so `indexOf` with the argument omitted returns
`-1` even for an observer that is present at position `0`. -/
theorem indexOf_omitted_start_not_zero :
    (⟨[5]⟩ : ObserverList Nat).indexOf 5 none ≠ 0
    ∧ (⟨[5]⟩ : ObserverList Nat).indexOf 5 none = -1
    ∧ jsIndex ([5] : List Nat) 0 = some 5 := by
  decide

/-- C7 (amended): with an explicit integer `startIndex` `s`, `indexOf(x, s)`
returns the smallest index at or after `s` whose element is `x`, or `-1` when
there is none; with the `startIndex` argument omitted, however, `indexOf`
returns `-1` unconditionally rather than defaulting the start to `0`. -/
theorem indexOf_first_match_from_start [DecidableEq α] (l : ObserverList α)
    (x : α) (s : Int) :
    FirstMatchFrom l.observerList x s (l.indexOf x (some s))
    ∧ l.indexOf x none = -1 := by
  constructor
  · exact indexOfLoop_spec l.observerList x _ s (le_refl _)
  · rfl

/-- C7 witness: a concrete scan from an explicit start index, and the omitted
argument case, on the list of the claim's scenario (an observer added twice). -/
theorem indexOf_first_match_from_start_witness :
    FirstMatchFrom ([5, 6, 5] : List Nat) 5 1
      ((⟨[5, 6, 5]⟩ : ObserverList Nat).indexOf 5 (some 1))
    ∧ (⟨[5, 6, 5]⟩ : ObserverList Nat).indexOf 5 none = -1 :=
  indexOf_first_match_from_start ⟨[5, 6, 5]⟩ 5 1

lemma mem_of_jsIndex (lst : List α) (j : Int) (x : α)
    (h : jsIndex lst j = some x) : x ∈ lst := by
  by_cases h0 : 0 ≤ j
  · exact List.getElem?_mem (by simpa [jsIndex, h0] using h)
  · simp [jsIndex, h0] at h

lemma indexOf_eq_neg_one_of_not_mem [DecidableEq α] (l : ObserverList α) (x : α)
    (hx : x ∉ l.observerList) : l.indexOf x (some 0) = -1 := by
  rcases indexOfLoop_spec l.observerList x (((l.observerList.length : Int) - 0).toNat) 0
      (le_refl _) with ⟨hr, _⟩ | ⟨_, hmatch, _⟩
  · exact hr
  · exact absurd (mem_of_jsIndex _ _ _ hmatch) hx

lemma spliceDelete1_neg_one (lst : List α) (hne : lst ≠ []) :
    spliceDelete1 lst (-1) = lst.dropLast := by
  have hlen : 0 < lst.length := List.length_pos.mpr hne
  have hstart : (((lst.length : Int) + (-1)).toNat) = lst.length - 1 := by omega
  have hdrop : lst.drop (lst.length - 1 + 1) = [] := by
    apply List.drop_eq_nil_of_le
    omega
  simp [spliceDelete1, hstart, hdrop, List.dropLast_eq_take]

/-- C2: on a subject with a non-empty observer list, removing an observer `x`
that is not in the list removes exactly the last (most recently appended)
element and decreases `count()` by `1`: `indexOf` returns `-1` and
`removeAt(-1)` splices one element off the end. -/
theorem removeObserver_absent_drops_last [DecidableEq α] (s : Subject α) (x : α)
    (hx : x ∉ s.observers.observerList) (hne : s.observers.observerList ≠ []) :
    (s.removeObserver x).observers.observerList = s.observers.observerList.dropLast
    ∧ (s.removeObserver x).observers.count = s.observers.count - 1 := by
  have hidx : s.observers.indexOf x (some 0) = -1 :=
    indexOf_eq_neg_one_of_not_mem s.observers x hx
  have hlist : (s.removeObserver x).observers.observerList
      = s.observers.observerList.dropLast := by
    simp [Subject.removeObserver, hidx, ObserverList.removeAt,
      spliceDelete1_neg_one s.observers.observerList hne]
  refine ⟨hlist, ?_⟩
  simp [ObserverList.count, hlist, List.length_dropLast]

/-- C2 witness: removing the unregistered observer `9` from the subject with
observer list `[3, 4]` drops the last entry `4` and shrinks the count to `1`. -/
theorem removeObserver_absent_drops_last_witness :
    ((⟨⟨[3, 4]⟩⟩ : Subject Nat).removeObserver 9).observers.observerList
        = ([3, 4] : List Nat).dropLast
    ∧ ((⟨⟨[3, 4]⟩⟩ : Subject Nat).removeObserver 9).observers.count
        = (⟨⟨[3, 4]⟩⟩ : Subject Nat).observers.count - 1 :=
  removeObserver_absent_drops_last ⟨⟨[3, 4]⟩⟩ 9 (by decide) (by decide)

lemma spliceDelete1_nonneg (lst : List α) (i : Nat) (h : i ≤ lst.length) :
    spliceDelete1 lst (i : Int) = lst.take i ++ lst.drop (i + 1) := by
  have hneg : ¬ ((i : Int) < 0) := by omega
  simp [spliceDelete1, hneg, Nat.min_eq_left h]

/-- C8: for an in-range index `i`, `removeAt(i)` removes exactly the element
at position `i` (the list becomes the part before `i` followed by the
elements after `i`, relative order preserved, so a duplicated observer loses
exactly one occurrence), `count()` decreases by exactly `1`, and `get(i)`
afterwards returns what `get(i+1)` returned before. -/
theorem removeAt_in_range_shifts_left (l : ObserverList α) (i : Nat) (h : i < l.count) :
    (l.removeAt (i : Int)).observerList
        = l.observerList.take i ++ l.observerList.drop (i + 1)
    ∧ (l.removeAt (i : Int)).count = l.count - 1
    ∧ (l.removeAt (i : Int)).get (i : Int) = l.get ((i : Int) + 1) := by
  have hlen : i < l.observerList.length := h
  have hlist : (l.removeAt (i : Int)).observerList
      = l.observerList.take i ++ l.observerList.drop (i + 1) := by
    simp [ObserverList.removeAt, spliceDelete1_nonneg l.observerList i (le_of_lt hlen)]
  have hcount : (l.removeAt (i : Int)).count = l.count - 1 := by
    simp [ObserverList.count, hlist, Nat.min_eq_left (le_of_lt hlen)]
    omega
  refine ⟨hlist, hcount, ?_⟩
  have hnewlen : (l.removeAt (i : Int)).observerList.length = l.observerList.length - 1 := by
    simpa [ObserverList.count] using hcount
  by_cases hlast : i + 1 < l.observerList.length
  · have hguardL : (-1 : Int) < (i : Int)
        ∧ (i : Int) < ((l.removeAt (i : Int)).observerList.length : Int) := by
      constructor
      · omega
      · rw [hnewlen]; omega
    have hguardR : (-1 : Int) < (i : Int) + 1
        ∧ (i : Int) + 1 < (l.observerList.length : Int) := by
      constructor
      · omega
      · omega
    have htake : (l.observerList.take i).length = i :=
      by simp [Nat.min_eq_left (le_of_lt hlen)]
    have haccess : (l.removeAt (i : Int)).observerList[i]? = l.observerList[i + 1]? := by
      rw [hlist, List.getElem?_append_right (by omega)]
      rw [htake, Nat.sub_self, List.getElem?_drop, Nat.add_zero]
    simp only [ObserverList.get, hguardL, hguardR, if_pos, and_self, jsIndex]
    have h0L : (0 : Int) ≤ (i : Int) := by omega
    have h0R : (0 : Int) ≤ (i : Int) + 1 := by omega
    simp [h0L, h0R, haccess]
  · have hstop : i + 1 = l.observerList.length := by omega
    have hguardL : ¬ ((-1 : Int) < (i : Int)
        ∧ (i : Int) < ((l.removeAt (i : Int)).observerList.length : Int)) := by
      intro hc
      rw [hnewlen] at hc
      omega
    have hguardR : ¬ ((-1 : Int) < (i : Int) + 1
        ∧ (i : Int) + 1 < (l.observerList.length : Int)) := by
      intro hc
      omega
    simp only [ObserverList.get]
    rw [if_neg hguardL, if_neg hguardR]

/-- C8 witness: removing index `1` from `[4, 5, 6]` yields `[4, 6]`, the count
drops from `3` to `2`, and `get(1)` afterwards returns the old `get(2)`. -/
theorem removeAt_in_range_shifts_left_witness :
    ((⟨[4, 5, 6]⟩ : ObserverList Nat).removeAt ((1 : Nat) : Int)).observerList
        = ([4, 5, 6] : List Nat).take 1 ++ ([4, 5, 6] : List Nat).drop 2
    ∧ ((⟨[4, 5, 6]⟩ : ObserverList Nat).removeAt ((1 : Nat) : Int)).count
        = (⟨[4, 5, 6]⟩ : ObserverList Nat).count - 1
    ∧ ((⟨[4, 5, 6]⟩ : ObserverList Nat).removeAt ((1 : Nat) : Int)).get ((1 : Nat) : Int)
        = (⟨[4, 5, 6]⟩ : ObserverList Nat).get (((1 : Nat) : Int) + 1) :=
  removeAt_in_range_shifts_left ⟨[4, 5, 6]⟩ 1 (by decide)

lemma ObserverList.get_nat (l : ObserverList α) (i : Nat)
    (h : i < l.observerList.length) :
    l.get (i : Int) = some l.observerList[i] := by
  have hguard : (-1 : Int) < (i : Int) ∧ (i : Int) < (l.observerList.length : Int) :=
    ⟨by omega, by omega⟩
  simp [ObserverList.get, hguard, jsIndex, List.getElem?_eq_getElem h]

lemma notifyLoop_zero (upd : α → γ → Subject α → Except ε (Subject α)) (ctx : γ)
    (i : Nat) (s : Subject α) (tr : List (α × γ)) :
    Subject.notifyLoop upd ctx i 0 s tr = (tr, Except.ok s) := rfl

lemma notifyLoop_succ_ok (upd : α → γ → Subject α → Except ε (Subject α)) (ctx : γ)
    (i r : Nat) (s s2 : Subject α) (tr : List (α × γ)) (ob : α)
    (hget : s.observers.get (i : Int) = some ob)
    (hupd : upd ob ctx s = Except.ok s2) :
    Subject.notifyLoop upd ctx i (r + 1) s tr
      = Subject.notifyLoop upd ctx (i + 1) r s2 (tr ++ [(ob, ctx)]) := by
  simp only [Subject.notifyLoop, hget, hupd]

lemma notifyLoop_succ_err (upd : α → γ → Subject α → Except ε (Subject α)) (ctx : γ)
    (i r : Nat) (s : Subject α) (tr : List (α × γ)) (ob : α) (e : ε)
    (hget : s.observers.get (i : Int) = some ob)
    (hupd : upd ob ctx s = Except.error e) :
    Subject.notifyLoop upd ctx i (r + 1) s tr
      = (tr ++ [(ob, ctx)], Except.error (NotifyError.handler e)) := by
  simp only [Subject.notifyLoop, hget, hupd]

lemma notifyLoop_succ_none (upd : α → γ → Subject α → Except ε (Subject α)) (ctx : γ)
    (i r : Nat) (s : Subject α) (tr : List (α × γ))
    (hget : s.observers.get (i : Int) = none) :
    Subject.notifyLoop upd ctx i (r + 1) s tr = (tr, Except.error NotifyError.typeError) := by
  simp only [Subject.notifyLoop, hget]

lemma notifyLoop_nonmutating (upd : α → γ → Subject α → Except ε (Subject α))
    (h : ∀ (ob : α) (c : γ) (t : Subject α), upd ob c t = Except.ok t)
    (ctx : γ) (s : Subject α) :
    ∀ (remaining i : Nat) (tr : List (α × γ)), i + remaining = s.observers.count →
      Subject.notifyLoop upd ctx i remaining s tr
        = (tr ++ (s.observers.observerList.drop i).map (fun ob => (ob, ctx)),
           Except.ok s) := by
  intro remaining
  induction remaining with
  | zero =>
    intro i tr hcnt
    have hlen : s.observers.observerList.length ≤ i := by
      have hc : s.observers.count = s.observers.observerList.length := rfl
      omega
    rw [notifyLoop_zero, List.drop_eq_nil_of_le hlen]
    simp
  | succ r ih =>
    intro i tr hcnt
    have hlen : i < s.observers.observerList.length := by
      have hc : s.observers.count = s.observers.observerList.length := rfl
      omega
    rw [notifyLoop_succ_ok upd ctx i r s s tr s.observers.observerList[i]
        (ObserverList.get_nat s.observers i hlen) (h _ _ _)]
    rw [ih (i + 1) (tr ++ [(s.observers.observerList[i], ctx)]) (by omega)]
    rw [List.drop_eq_getElem_cons hlen, List.map_cons, List.append_assoc,
      List.singleton_append]

/-- C4: when no registered handler mutates the observer list (each `update`
call completes normally and leaves the subject unchanged), `notify(ctx)`
invokes the update operation of every observer occurrence present at call
time exactly once, in ascending index (insertion) order, passing `ctx`
unchanged to each: the dispatch trace is exactly the stored observer
sequence paired with `ctx`. -/
theorem notify_nonmutating_in_order (upd : α → γ → Subject α → Except ε (Subject α))
    (h : ∀ (ob : α) (c : γ) (t : Subject α), upd ob c t = Except.ok t)
    (s : Subject α) (ctx : γ) :
    Subject.notify upd s ctx
      = (s.observers.observerList.map (fun ob => (ob, ctx)), Except.ok s) := by
  have hloop := notifyLoop_nonmutating upd h ctx s s.observers.count 0 [] (by omega)
  simpa [Subject.notify] using hloop

/-- A handler that does nothing: `update` returns, leaving the subject as it
found it. -/
def pureHandler : Nat → Nat → Subject Nat → Except Unit (Subject Nat) :=
  fun _ _ s => Except.ok s

/-- The subject of the claimed scenario: `add(A)`, `add(B)`, `add(A)` with
`A = 10`, `B = 20`. -/
def subjectABA : Subject Nat :=
  ((Subject.new.addObserver 10).addObserver 20).addObserver 10

/-- C4 witness: after `add(A)`, `add(B)`, `add(A)` the count is `3` and
`notify(5)` invokes update on `A`, `B`, `A` in that order, each with
argument `5`. -/
theorem notify_nonmutating_in_order_witness :
    subjectABA.observers.count = 3
    ∧ Subject.notify pureHandler subjectABA 5
        = ([(10, 5), (20, 5), (10, 5)], Except.ok subjectABA) := by
  refine ⟨by decide, ?_⟩
  have h := notify_nonmutating_in_order pureHandler (fun _ _ _ => rfl) subjectABA 5
  simpa [subjectABA, Subject.new, Subject.addObserver, ObserverList.new,
    ObserverList.add] using h

/-- A handler interpretation whose only effect on the subject is to append
observers at the end of the list (possibly none). -/
def AddOnly (upd : α → γ → Subject α → Except ε (Subject α)) : Prop :=
  ∀ (ob : α) (c : γ) (s : Subject α), ∃ ext : List α,
    upd ob c s = Except.ok ⟨⟨s.observers.observerList ++ ext⟩⟩

lemma notifyLoop_addOnly (upd : α → γ → Subject α → Except ε (Subject α))
    (h : AddOnly upd) (ctx : γ) (l0 : List α) :
    ∀ (remaining i : Nat) (s : Subject α) (tr : List (α × γ)),
      i + remaining = l0.length →
      (∃ ext, s.observers.observerList = l0 ++ ext) →
      (Subject.notifyLoop upd ctx i remaining s tr).1
          = tr ++ (l0.drop i).map (fun ob => (ob, ctx))
      ∧ ∃ s2 ext2, (Subject.notifyLoop upd ctx i remaining s tr).2 = Except.ok s2
          ∧ s2.observers.observerList = l0 ++ ext2 := by
  intro remaining
  induction remaining with
  | zero =>
    intro i s tr hcnt hpre
    obtain ⟨ext, hext⟩ := hpre
    rw [notifyLoop_zero]
    constructor
    · rw [List.drop_eq_nil_of_le (by omega)]
      simp
    · exact ⟨s, ext, rfl, hext⟩
  | succ r ih =>
    intro i s tr hcnt hpre
    obtain ⟨ext, hext⟩ := hpre
    have hlen0 : i < l0.length := by omega
    have hlenS : i < s.observers.observerList.length := by
      rw [hext, List.length_append]
      omega
    have helem : s.observers.observerList[i] = l0[i] := by
      have h1 := List.getElem?_eq_getElem hlenS
      have hq : s.observers.observerList[i]? = l0[i]? := by
        rw [hext]
        exact List.getElem?_append_left hlen0
      rw [hq, List.getElem?_eq_getElem hlen0] at h1
      exact (Option.some.inj h1).symm
    have hget : s.observers.get (i : Int) = some l0[i] := by
      rw [ObserverList.get_nat s.observers i hlenS, helem]
    obtain ⟨ext', hupd⟩ := h l0[i] ctx s
    rw [notifyLoop_succ_ok upd ctx i r s ⟨⟨s.observers.observerList ++ ext'⟩⟩ tr l0[i]
        hget hupd]
    have hpre2 : ∃ ext2, (⟨⟨s.observers.observerList ++ ext'⟩⟩ : Subject α).observers.observerList
        = l0 ++ ext2 := ⟨ext ++ ext', by rw [hext, List.append_assoc]⟩
    obtain ⟨htr, hout⟩ := ih (i + 1) ⟨⟨s.observers.observerList ++ ext'⟩⟩
      (tr ++ [(l0[i], ctx)]) (by omega) hpre2
    constructor
    · rw [htr, List.drop_eq_getElem_cons hlen0, List.map_cons, List.append_assoc,
        List.singleton_append]
    · exact hout

/-- A handler under which the observer `0` removes itself from the subject
during dispatch; every other observer leaves the subject unchanged. -/
def selfRemovingHandler : Nat → Nat → Subject Nat → Except Unit (Subject Nat) :=
  fun ob _ s => Except.ok (if ob = 0 then s.removeObserver 0 else s)

/-- C3 counterexample: on the subject with observers `[0, 1]`, observer `0`'s
handler removes `0` during `notify(5)`. Observer `1` — present at call start
and not itself removed — is never invoked, and the dispatch ends in a JS
`TypeError` (`get(1)` returns `undefined` once the list has shrunk), so
`notify` throws: dispatch is not based on a membership snapshot. -/
theorem notify_reentrant_removal_throws :
    (Subject.notify selfRemovingHandler (⟨⟨[0, 1]⟩⟩ : Subject Nat) 5).2
        = Except.error NotifyError.typeError
    ∧ (1, 5) ∉ (Subject.notify selfRemovingHandler (⟨⟨[0, 1]⟩⟩ : Subject Nat) 5).1
    ∧ (1 : Nat) ∈ (⟨⟨[0, 1]⟩⟩ : Subject Nat).observers.observerList := by
  refine ⟨rfl, by decide, by decide⟩

/-- C3 (amended): `notify` snapshots only the observer count, not the list
contents, so the claim holds only when handler mutations during dispatch are
additions: then every observer present at call start is invoked exactly once,
in order, and `notify` does not throw. A handler that removes an observer can
make the same pass skip an unrelated observer and throw (see the
counterexample). -/
theorem notify_addOnly_not_skipped (upd : α → γ → Subject α → Except ε (Subject α))
    (h : AddOnly upd) (s : Subject α) (ctx : γ) :
    (Subject.notify upd s ctx).1 = s.observers.observerList.map (fun ob => (ob, ctx))
    ∧ ∃ s2, (Subject.notify upd s ctx).2 = Except.ok s2 := by
  have hpre : ∃ ext, s.observers.observerList = s.observers.observerList ++ ext :=
    ⟨[], by simp⟩
  have hc : s.observers.count = s.observers.observerList.length := rfl
  obtain ⟨htr, s2, ext2, hout, _⟩ := notifyLoop_addOnly upd h ctx
    s.observers.observerList s.observers.count 0 s [] (by omega) hpre
  constructor
  · simpa [Subject.notify] using htr
  · exact ⟨s2, by simpa [Subject.notify] using hout⟩

/-- A handler under which the observer `0` registers the new observer `2`
on the subject during dispatch; every other observer leaves the subject
unchanged. -/
def addingHandler : Nat → Nat → Subject Nat → Except Unit (Subject Nat) :=
  fun ob _ s => Except.ok (if ob = 0 then s.addObserver 2 else s)

lemma addingHandler_addOnly : AddOnly addingHandler := by
  intro ob c s
  by_cases hob : ob = 0
  · exact ⟨[2], by simp [addingHandler, hob, Subject.addObserver, ObserverList.add]⟩
  · exact ⟨[], by simp [addingHandler, hob]⟩

/-- C3 witness: with the add-only handler on the subject `[0, 1]`, the pass
invokes `0` then `1` with context `7` and ends without an error. -/
theorem notify_addOnly_not_skipped_witness :
    (Subject.notify addingHandler (⟨⟨[0, 1]⟩⟩ : Subject Nat) 7).1 = [(0, 7), (1, 7)]
    ∧ ∃ s2, (Subject.notify addingHandler (⟨⟨[0, 1]⟩⟩ : Subject Nat) 7).2 = Except.ok s2 := by
  have h := notify_addOnly_not_skipped addingHandler addingHandler_addOnly
    (⟨⟨[0, 1]⟩⟩ : Subject Nat) 7
  simpa using h

/-- A handler under which the observer `0` removes the observer `1` and then
registers the new observer `2` on the subject during dispatch; every other
observer leaves the subject unchanged. -/
def removeAndAddHandler : Nat → Nat → Subject Nat → Except Unit (Subject Nat) :=
  fun ob _ s => Except.ok (if ob = 0 then (s.removeObserver 1).addObserver 2 else s)

/-- C6 counterexample: on the subject with observers `[0, 1]`, observer `0`'s
handler removes `1` and adds the new observer `2` during `notify(7)`. The
list becomes `[0, 2]` while the loop is still at index `1`, so the observer
`2` — added to the subject during the dispatch — is invoked in that very
pass: the trace is `[(0, 7), (2, 7)]`. -/
theorem notify_added_during_dispatch_invoked :
    (2 : Nat) ∉ (⟨⟨[0, 1]⟩⟩ : Subject Nat).observers.observerList
    ∧ (2, 7) ∈ (Subject.notify removeAndAddHandler (⟨⟨[0, 1]⟩⟩ : Subject Nat) 7).1 := by
  refine ⟨by decide, by decide⟩

/-- C6 (amended): the deferral holds only when the intra-dispatch mutations
are additions. If every handler only appends observers, then an observer `x`
absent at call start is not invoked during that pass, and once the pass
leaves `x` in the resulting subject's list, the next `notify` (whose handlers
leave the list unchanged) invokes `x`. When a handler also removes observers,
an observer added during the pass can be invoked in the same pass (see the
counterexample). -/
theorem notify_addOnly_added_deferred (upd : α → γ → Subject α → Except ε (Subject α))
    (h : AddOnly upd) (s : Subject α) (ctx : γ) (x : α)
    (hx : x ∉ s.observers.observerList) (s2 : Subject α)
    (h2 : (Subject.notify upd s ctx).2 = Except.ok s2)
    (hmem : x ∈ s2.observers.observerList)
    (upd2 : α → γ → Subject α → Except ε (Subject α)) (ctx2 : γ)
    (hpure : ∀ (ob : α) (c : γ) (t : Subject α), upd2 ob c t = Except.ok t) :
    (x, ctx) ∉ (Subject.notify upd s ctx).1
    ∧ (x, ctx2) ∈ (Subject.notify upd2 s2 ctx2).1 := by
  constructor
  · have htr := (notify_addOnly_not_skipped upd h s ctx).1
    rw [htr]
    intro hc
    rcases List.mem_map.mp hc with ⟨a, ha, hax⟩
    have : a = x := congrArg Prod.fst hax
    rw [this] at ha
    exact hx ha
  · have htr := notify_nonmutating_in_order upd2 hpure s2 ctx2
    rw [htr]
    exact List.mem_map.mpr ⟨x, hmem, rfl⟩

/-- C6 witness: the add-only handler on the subject `[0, 1]` registers `2`
during `notify(7)`; `(2, 7)` is absent from that pass's trace, and the next
`notify(9)` on the resulting subject `[0, 1, 2]` invokes `2`. -/
theorem notify_addOnly_added_deferred_witness :
    (2, 7) ∉ (Subject.notify addingHandler (⟨⟨[0, 1]⟩⟩ : Subject Nat) 7).1
    ∧ (2, 9) ∈ (Subject.notify pureHandler (⟨⟨[0, 1, 2]⟩⟩ : Subject Nat) 9).1 :=
  notify_addOnly_added_deferred addingHandler addingHandler_addOnly
    (⟨⟨[0, 1]⟩⟩ : Subject Nat) 7 2 (by decide) (⟨⟨[0, 1, 2]⟩⟩ : Subject Nat) rfl
    (by decide) pureHandler 9 (fun _ _ _ => rfl)

/-- A family of handlers that never mutate the subject: the handler of
observer `ob` raises the error `f ob` when that is `some`, and otherwise
returns normally. -/
def throwingUpd (f : α → Option ε) : α → γ → Subject α → Except ε (Subject α) :=
  fun ob _ s =>
    match f ob with
    | some e => Except.error e
    | none => Except.ok s

lemma notifyLoop_throwing_seg (f : α → Option ε) (ctx : γ) (s : Subject α)
    (i : Nat) (ob : α) (e : ε)
    (hob : s.observers.observerList[i]? = some ob) (he : f ob = some e) :
    ∀ (n a remaining : Nat) (tr : List (α × γ)),
      a + n = i → i < a + remaining →
      (∀ j, a ≤ j → j < i → ∀ p, s.observers.observerList[j]? = some p → f p = none) →
      Subject.notifyLoop (throwingUpd f) ctx a remaining s tr
        = (tr ++ ((s.observers.observerList.drop a).take (i + 1 - a)).map (fun x => (x, ctx)),
           Except.error (NotifyError.handler e)) := by
  have hlt : i < s.observers.observerList.length := by
    rcases List.getElem?_eq_some.mp hob with ⟨hlt, _⟩
    exact hlt
  have helem : s.observers.observerList[i] = ob := by
    rcases List.getElem?_eq_some.mp hob with ⟨_, helem⟩
    exact helem
  intro n
  induction n with
  | zero =>
    intro a remaining tr ha hrem hprev
    have ha' : a = i := by omega
    subst ha'
    obtain ⟨r, hr⟩ : ∃ r, remaining = r + 1 := ⟨remaining - 1, by omega⟩
    subst hr
    have hget : s.observers.get (a : Int) = some ob := by
      rw [ObserverList.get_nat s.observers a hlt, helem]
    have hupd : throwingUpd f ob ctx s = Except.error e := by
      simp [throwingUpd, he]
    rw [notifyLoop_succ_err (throwingUpd f) ctx a r s tr ob e hget hupd]
    have h1 : a + 1 - a = 1 := by omega
    rw [h1, List.drop_eq_getElem_cons hlt]
    simp [helem]
  | succ n ih =>
    intro a remaining tr ha hrem hprev
    have hai : a < i := by omega
    obtain ⟨r, hr⟩ : ∃ r, remaining = r + 1 := ⟨remaining - 1, by omega⟩
    subst hr
    have hlenA : a < s.observers.observerList.length := by omega
    have hgetA : s.observers.get (a : Int) = some s.observers.observerList[a] :=
      ObserverList.get_nat s.observers a hlenA
    have hfa : f s.observers.observerList[a] = none :=
      hprev a (le_refl a) hai _ (List.getElem?_eq_getElem hlenA)
    have hupd : throwingUpd f s.observers.observerList[a] ctx s = Except.ok s := by
      simp [throwingUpd, hfa]
    rw [notifyLoop_succ_ok (throwingUpd f) ctx a r s s tr _ hgetA hupd]
    rw [ih (a + 1) r (tr ++ [(s.observers.observerList[a], ctx)]) (by omega) (by omega)
      (fun j hj hji p hp => hprev j (by omega) hji p hp)]
    have hsub : i + 1 - a = (i + 1 - (a + 1)) + 1 := by omega
    rw [hsub, List.drop_eq_getElem_cons hlenA, List.take_succ_cons, List.map_cons,
      List.append_assoc, List.singleton_append]

/-- C5: if the observer at index `i` raises an error from its update handler
during `notify(ctx)` (and the handlers before it complete normally without
mutating the list), the error propagates synchronously to the caller of
`notify` as a handler failure, and the observers at indices after `i` are not
invoked: the trace stops at position `i`, with no retry or per-observer
isolation. -/
theorem notify_handler_error_failfast (f : α → Option ε) (s : Subject α) (ctx : γ)
    (i : Nat) (ob : α) (e : ε)
    (hob : s.observers.observerList[i]? = some ob)
    (he : f ob = some e)
    (hprev : ∀ j, j < i → ∀ p, s.observers.observerList[j]? = some p → f p = none) :
    Subject.notify (throwingUpd f) s ctx
      = ((s.observers.observerList.take (i + 1)).map (fun x => (x, ctx)),
         Except.error (NotifyError.handler e)) := by
  have hlt : i < s.observers.observerList.length := by
    rcases List.getElem?_eq_some.mp hob with ⟨hlt, _⟩
    exact hlt
  have hc : s.observers.count = s.observers.observerList.length := rfl
  have h := notifyLoop_throwing_seg f ctx s i ob e hob he i 0 s.observers.count []
    (by omega) (by omega) (fun j _ hji p hp => hprev j hji p hp)
  simpa [Subject.notify] using h

/-- The handler fault map of the C5 witness: observer `1`'s update handler
raises, all others return normally. -/
def failingHandlerAt1 : Nat → Option Unit :=
  fun ob => if ob = 1 then some () else none

/-- C5 witness: on the subject `[0, 1, 2]` where observer `1`'s handler
raises, `notify(5)` invokes `0` and `1`, propagates the handler error, and
never invokes `2`. -/
theorem notify_handler_error_failfast_witness :
    Subject.notify (throwingUpd failingHandlerAt1) (⟨⟨[0, 1, 2]⟩⟩ : Subject Nat) 5
      = ([(0, 5), (1, 5)], Except.error (NotifyError.handler ())) := by
  have h := notify_handler_error_failfast failingHandlerAt1 (⟨⟨[0, 1, 2]⟩⟩ : Subject Nat)
    5 1 1 () (by decide) rfl ?hprev
  case hprev =>
    intro j hj p hp
    have hj0 : j = 0 := by omega
    subst hj0
    simp at hp
    simp [failingHandlerAt1, ← hp]
  simpa using h
